import Mathlib

/-!
Verification of the zone master-file lexer (`src/lexer.rs`).

The lexer is a pull-based finite-state machine: `next_token` loops over a
one-character lookahead (`Peekable<Chars>`), with a call-local accumulator
`chars : Option<String>`, the persistent fields being the remaining input,
the line/column counters and the current `State`.

The embedding below mirrors the Rust source arm by arm:
  * `rustIsControl` / `rustIsWhitespace` are Rust's `char::is_control`
    (Unicode Cc) and `char::is_whitespace` (Unicode White_Space);
  * `lexStep` performs one iteration of the `loop` in `next_token`, with
    the match arms in source order (guard order matters: CR and LF are
    control characters, so in `State::Dollar` they are caught by the
    `is_control` guard before the literal `Some('\r') | Some('\n')`
    patterns further down);
  * `Outcome.fatal` models a Rust panic: the `unimplemented` branches and
    the `unwrap` of a `None` accumulator inside `push_to_str`;
  * `lexLoop` runs `lexStep` with fuel; `Outcome.outOfFuel` is a pure
    artifact of the fuel encoding and is unreachable for fuel above
    `lexMeasure` (each looping step consumes a character or drops the
    state rank), which `nextToken` supplies.
-/

namespace ZoneLexer

/-- Rust `char::is_control`: Unicode general category Cc,
i.e. U+0000–U+001F and U+007F–U+009F. -/
def rustIsControl (c : Char) : Bool :=
  c.toNat ≤ 0x1F || (0x7F ≤ c.toNat && c.toNat ≤ 0x9F)

/-- Rust `char::is_whitespace`: the Unicode White_Space property. -/
def rustIsWhitespace (c : Char) : Bool :=
  let n := c.toNat
  (9 ≤ n && n ≤ 13) || n == 0x20 || n == 0x85 || n == 0xA0 || n == 0x1680 ||
    (0x2000 ≤ n && n ≤ 0x200A) || n == 0x2028 || n == 0x2029 || n == 0x202F ||
    n == 0x205F || n == 0x3000

/-- The `Token` enum of `src/lexer.rs`.  String payloads are modelled as
`List Char` (a Rust `String` in source order). -/
inductive Token where
  | origin (domain_name : List Char) (lineno : Int)
  | includeTok (file_name : List Char) (domain_name : Option (List Char)) (lineno : Int)
  | ttl (t : Int) (lineno : Int)
  | text (s : List Char)
  | domainName (s : List Char)
  | comment
  | openParen
  | closeParen
  | eof
deriving DecidableEq

/-- The private `State` enum of `src/lexer.rs`. -/
inductive State where
  | startLine
  | dollar
  | origin
  | includeFileName
  | includeDomainName (file_name : List Char)
  | ttl
  | domainName
  | blank
  | comment
  | restOfLine
  | quote
  | eol
  | eofState
deriving DecidableEq

/-- The `Lexer` struct: remaining input (the `Peekable<Chars>` iterator,
whose `peek` is the head of `zf`), line/column counters and current state. -/
structure Lexer where
  zf : List Char
  lineno : Int
  charno : Int
  state : State
deriving DecidableEq

/-- `Lexer::new`: position (0,0), state `StartLine`. -/
def Lexer.new (zonefile : List Char) : Lexer :=
  { zf := zonefile, lineno := 0, charno := 0, state := .startLine }

/-- `Lexer::next`: consume one character (no-op on the exhausted iterator)
and bump the column counter. -/
def Lexer.next (lx : Lexer) : Lexer :=
  { lx with zf := lx.zf.tail, charno := lx.charno + 1 }

/-- `chars.take().unwrap_or_else(|| "".into())`. -/
def charsGet (chars : Option (List Char)) : List Char :=
  chars.getD []

/-- Result of one `next_token` call.  `tok t` is `Ok(Some(t))`, `err m` is
`Err(m)`, `fatal` is a panic (an `unimplemented` arm, or `push_to_str` /
`unwrap` applied to a `None` accumulator).  `outOfFuel` is the fuel
artifact, unreachable under `nextToken`'s fuel bound. -/
inductive Outcome where
  | tok (t : Token)
  | err (msg : String)
  | fatal
  | outOfFuel
deriving DecidableEq

/-- Result of one iteration of the `loop` inside `next_token`: either the
call returns (`done`), or the loop continues with an updated lexer and
accumulator (`more`). -/
inductive StepRes where
  | done (out : Outcome) (lx : Lexer)
  | more (lx : Lexer) (chars : Option (List Char))
deriving DecidableEq

/-- One iteration of the `loop` in `Lexer::next_token`, transcribed arm by
arm from `src/lexer.rs` (lines 158–263).  `chars` is the call-local
accumulator. -/
def lexStep (lx : Lexer) (chars : Option (List Char)) : StepRes :=
  match lx.state with
  | .startLine =>
    match lx.zf with
    | [] => .done (.tok .eof) lx
    | c :: _ =>
      if c = '\r' ∨ c = '\n' then
        .more { lx with state := .eol } chars
      else if c = ';' then
        .done (.tok .comment) { lx with state := .comment }
      else if c = '$' then
        .more ({ lx with state := .dollar }).next (some [])
      else
        .done .fatal lx
  | .dollar =>
    match lx.zf with
    | c :: _ =>
      if rustIsControl c then
        .done (.err "Unexpected control character found") lx
      else if !rustIsWhitespace c then
        match chars with
        | none => .done .fatal lx
        | some s => .more lx.next (some (s ++ [c]))
      else
        match chars with
        | none => .done .fatal lx
        | some s =>
          if s = "INCLUDE".toList then
            .more ({ lx with state := .includeFileName }).next (some [])
          else if s = "ORIGIN".toList then
            .more ({ lx with state := .origin }).next (some [])
          else if s = "TTL".toList then
            .more ({ lx with state := .ttl }).next (some [])
          else
            .done (.err "Unknown control entry") lx
    | [] => .done (.err "Unexpected end of line") lx
  | .origin =>
    match lx.zf with
    | c :: _ =>
      if !rustIsControl c && !rustIsWhitespace c then
        match chars with
        | none => .done .fatal lx
        | some s => .more lx.next (some (s ++ [c]))
      else
        .done (.tok (.origin (charsGet chars) lx.lineno)) { lx with state := .restOfLine }
    | [] => .done (.tok (.origin (charsGet chars) lx.lineno)) { lx with state := .restOfLine }
  | .comment =>
    .more ({ lx with state := .restOfLine }).next (some [])
  | .restOfLine =>
    match lx.zf with
    | [] => .done (.tok (.text (charsGet chars))) { lx with state := .eol }
    | c :: _ =>
      if c = '\r' ∨ c = '\n' then
        .done (.tok (.text (charsGet chars))) { lx with state := .eol }
      else if rustIsControl c then
        .done (.err "Unexpected control character found") lx
      else
        match chars with
        | none => .done .fatal lx
        | some s => .more lx.next (some (s ++ [c]))
  | .eol =>
    match lx.zf with
    | c :: _ =>
      if c = '\r' then
        .more lx.next chars
      else if c = '\n' then
        .more { ({ lx with lineno := lx.lineno + 1, charno := 0 }).next with state := .startLine } chars
      else
        .done (.tok .eof) lx
    | [] => .done (.tok .eof) lx
  | _ => .done .fatal lx

/-- Rank making the loop measure strictly decrease on the two steps that
consume no character (`StartLine → EOL`, and `Comment → RestOfLine` on
exhausted input). -/
def stateRank : State → Nat
  | .startLine => 1
  | .comment => 1
  | _ => 0

/-- Termination measure for the `next_token` loop. -/
def lexMeasure (lx : Lexer) : Nat :=
  2 * lx.zf.length + stateRank lx.state

/-- Fuelled driver for the `loop` of `next_token`. -/
def lexLoop : Nat → Lexer → Option (List Char) → Outcome × Lexer
  | 0, lx, _ => (.outOfFuel, lx)
  | fuel + 1, lx, chars =>
    match lexStep lx chars with
    | .done out lx' => (out, lx')
    | .more lx' chars' => lexLoop fuel lx' chars'

/-- Run the loop from a given lexer and accumulator with sufficient fuel. -/
def lexRun (lx : Lexer) (chars : Option (List Char)) : Outcome × Lexer :=
  lexLoop (lexMeasure lx + 1) lx chars

/-- `Lexer::next_token`: the accumulator starts out as `None` on every
call. -/
def nextToken (lx : Lexer) : Outcome × Lexer :=
  lexRun lx none

/-- Result of the (n+1)-th successive `next_token` call on a fresh lexer:
`nthCall lx 0` is the first call, each later call resumes from the lexer
returned by the previous one. -/
def nthCall (lx : Lexer) : Nat → Outcome × Lexer
  | 0 => nextToken lx
  | n + 1 => nextToken (nthCall lx n).2

/-- Lexer configurations from which `next_token` is a no-op returning
`EOF`: start of line with exhausted input, or the `EOL` state looking at
exhausted input or at a character that is neither CR nor LF. -/
def eofStable (lx : Lexer) : Prop :=
  match lx.state, lx.zf with
  | .startLine, [] => True
  | .eol, [] => True
  | .eol, c :: _ => c ≠ '\r' ∧ c ≠ '\n'
  | _, _ => False

/-- Every looping step of `next_token` strictly decreases the measure:
it either consumes an input character, or moves from a rank-1 state
(`StartLine`, `Comment`) to a rank-0 state on the same input. -/
theorem step_decreases {lx : Lexer} {chars : Option (List Char)} {lx' : Lexer}
    {chars' : Option (List Char)} (h : lexStep lx chars = .more lx' chars') :
    lexMeasure lx' < lexMeasure lx := by
  obtain ⟨zf, li, cn, st⟩ := lx
  cases st <;> cases zf <;>
    simp only [lexStep, Lexer.next, List.tail] at h <;>
    (repeat' split at h) <;>
    cases h <;>
    simp [lexMeasure, stateRank, Lexer.next] <;>
    omega

/-- For any two fuels above the measure, `lexLoop` computes the same
result: the fuel is irrelevant once sufficient. -/
theorem lexLoop_det :
    ∀ (f g : Nat) (lx : Lexer) (chars : Option (List Char)),
      lexMeasure lx < f → lexMeasure lx < g →
      lexLoop f lx chars = lexLoop g lx chars := by
  intro f
  induction f with
  | zero => intro g lx chars hf; omega
  | succ f ih =>
    intro g lx chars hf hg
    cases g with
    | zero => omega
    | succ g =>
      simp only [lexLoop]
      cases hstep : lexStep lx chars with
      | done out lx' => rfl
      | more lx' chars' =>
        have hlt := step_decreases hstep
        exact ih g lx' chars' (by omega) (by omega)

/-- Interface lemma: if one step returns, `lexRun` returns that result. -/
theorem lexRun_done {lx : Lexer} {chars : Option (List Char)} {out : Outcome}
    {lx' : Lexer} (h : lexStep lx chars = .done out lx') :
    lexRun lx chars = (out, lx') := by
  simp only [lexRun, lexLoop, h]

/-- Interface lemma: if one step continues, `lexRun` continues from the
stepped configuration. -/
theorem lexRun_more {lx : Lexer} {chars : Option (List Char)} {lx' : Lexer}
    {chars' : Option (List Char)} (h : lexStep lx chars = .more lx' chars') :
    lexRun lx chars = lexRun lx' chars' := by
  have hlt := step_decreases h
  simp only [lexRun, lexLoop, h]
  exact lexLoop_det _ _ _ _ hlt (Nat.lt_succ_self _)

/-- A step can only return the `EOF` token from an `eofStable`
configuration, which it leaves unchanged. -/
theorem step_eof_stable {lx : Lexer} {chars : Option (List Char)} {lx' : Lexer}
    (h : lexStep lx chars = .done (.tok .eof) lx') :
    lx' = lx ∧ eofStable lx := by
  obtain ⟨zf, li, cn, st⟩ := lx
  cases st <;> cases zf <;>
    simp only [lexStep, Lexer.next, List.tail] at h <;>
    (repeat' split at h) <;>
    simp_all [eofStable]

/-- From an `eofStable` configuration, a step immediately returns `EOF`
without changing the lexer. -/
theorem stable_step {lx : Lexer} (h : eofStable lx) (chars : Option (List Char)) :
    lexStep lx chars = .done (.tok .eof) lx := by
  obtain ⟨zf, li, cn, st⟩ := lx
  cases st <;> cases zf <;> simp_all [eofStable, lexStep]

/-- Whenever `lexLoop` returns the `EOF` token, the lexer it hands back is
`eofStable`. -/
theorem lexLoop_eof_stable :
    ∀ (f : Nat) (lx : Lexer) (chars : Option (List Char)),
      (lexLoop f lx chars).1 = .tok .eof → eofStable (lexLoop f lx chars).2 := by
  intro f
  induction f with
  | zero => intro lx chars h; simp [lexLoop] at h
  | succ f ih =>
    intro lx chars h
    simp only [lexLoop] at h ⊢
    cases hstep : lexStep lx chars with
    | done out lx' =>
      rw [hstep] at h
      dsimp only at h
      subst h
      obtain ⟨rfl, hst⟩ := step_eof_stable hstep
      exact hst
    | more lx' chars' =>
      rw [hstep] at h
      dsimp only at h
      exact ih lx' chars' h

/-- From an `eofStable` configuration, `next_token` returns `EOF` and
leaves the lexer untouched. -/
theorem stable_nextToken {lx : Lexer} (h : eofStable lx) :
    nextToken lx = (.tok .eof, lx) :=
  lexRun_done (stable_step h none)

/-- Walking the `Dollar` state: a run of non-control, non-whitespace
characters is appended to the accumulator one character at a time. -/
theorem dollar_accumulate (name : List Char) :
    ∀ (acc zrest : List Char) (li cn : Int),
      (∀ c ∈ name, rustIsControl c = false ∧ rustIsWhitespace c = false) →
      lexRun { zf := name ++ zrest, lineno := li, charno := cn, state := .dollar } (some acc) =
        lexRun { zf := zrest, lineno := li, charno := cn + name.length, state := .dollar }
          (some (acc ++ name)) := by
  induction name with
  | nil => intro acc zrest li cn _; simp
  | cons c name ih =>
    intro acc zrest li cn hname
    obtain ⟨hc, hcs⟩ : (rustIsControl c = false ∧ rustIsWhitespace c = false) ∧
        ∀ c' ∈ name, rustIsControl c' = false ∧ rustIsWhitespace c' = false := by
      constructor
      · exact hname c (List.mem_cons_self c name)
      · intro c' hc'; exact hname c' (List.mem_cons_of_mem c hc')
    have hstep : lexStep
        { zf := (c :: name) ++ zrest, lineno := li, charno := cn, state := .dollar }
        (some acc) =
        .more { zf := name ++ zrest, lineno := li, charno := cn + 1, state := .dollar }
          (some (acc ++ [c])) := by
      simp [lexStep, hc.1, hc.2, Lexer.next]
    rw [lexRun_more hstep, ih (acc ++ [c]) zrest li (cn + 1) hcs]
    have harith : cn + 1 + (name.length : Int) = cn + ((name.length : Int) + 1) := by
      ring
    simp only [List.append_assoc, List.singleton_append, List.length_cons,
      Nat.cast_add, Nat.cast_one, harith]

/-- Walking the `RestOfLine` state: a run of non-control characters
(which are in particular neither CR nor LF) is appended to the
accumulator one character at a time. -/
theorem restOfLine_accumulate (pre : List Char) :
    ∀ (acc zrest : List Char) (li cn : Int),
      (∀ x ∈ pre, rustIsControl x = false) →
      lexRun { zf := pre ++ zrest, lineno := li, charno := cn, state := .restOfLine }
          (some acc) =
        lexRun { zf := zrest, lineno := li, charno := cn + pre.length,
                 state := .restOfLine } (some (acc ++ pre)) := by
  induction pre with
  | nil => intro acc zrest li cn _; simp
  | cons x pre ih =>
    intro acc zrest li cn hpre
    have hx : rustIsControl x = false := hpre x (List.mem_cons_self x pre)
    have hxs : ∀ x' ∈ pre, rustIsControl x' = false := fun x' hx' =>
      hpre x' (List.mem_cons_of_mem x hx')
    have hxr : ¬(x = '\r' ∨ x = '\n') := by
      rintro (rfl | rfl) <;> exact absurd hx (by decide)
    have hstep : lexStep
        { zf := (x :: pre) ++ zrest, lineno := li, charno := cn, state := .restOfLine }
        (some acc) =
        .more { zf := pre ++ zrest, lineno := li, charno := cn + 1, state := .restOfLine }
          (some (acc ++ [x])) := by
      simp [lexStep, hxr, hx, Lexer.next]
    rw [lexRun_more hstep, ih (acc ++ [x]) zrest li (cn + 1) hxs]
    have harith : cn + 1 + (pre.length : Int) = cn + ((pre.length : Int) + 1) := by
      ring
    simp only [List.append_assoc, List.singleton_append, List.length_cons,
      Nat.cast_add, Nat.cast_one, harith]

/-- C1: the claim says a line starting at column 0 with a non-whitespace
character yields a `DomainName` token, and a line starting with blank
yields a `Blank` token.  The code instead panics: the `StartLine` state
hits the `unimplemented` catch-all on any such character (the
`DomainName` and `Blank` states are themselves unimplemented), shown here
on the inputs `"a\n"` and `" a\n"`. -/
theorem c1_owner_line_panics :
    (nextToken (Lexer.new "a\n".toList)).1 = Outcome.fatal ∧
      (nextToken (Lexer.new " a\n".toList)).1 = Outcome.fatal := by decide

/-- C2 counterexample: on `"$ORIGIN example.com.\n"` the second
`next_token` call returns the token `Text("")`, not `EndOfInput`, so the
claimed sequence (Origin directly followed by EndOfInput) is false. -/
theorem c2_second_call_text_counterexample :
    (nthCall (Lexer.new "$ORIGIN example.com.\n".toList) 1).1 =
        .tok (.text []) ∧
      (nthCall (Lexer.new "$ORIGIN example.com.\n".toList) 1).1 ≠ .tok .eof := by
  decide

/-- C2 amended: on `"$ORIGIN example.com.\n"` the call sequence yields
`Origin{name "example.com.", line 0}`, then an empty `Text` token emitted
by the rest-of-line state at the line terminator, then `EndOfInput`. -/
theorem c2_amended_origin_sequence :
    (nthCall (Lexer.new "$ORIGIN example.com.\n".toList) 0).1 =
        .tok (.origin "example.com.".toList 0) ∧
      (nthCall (Lexer.new "$ORIGIN example.com.\n".toList) 1).1 = .tok (.text []) ∧
      (nthCall (Lexer.new "$ORIGIN example.com.\n".toList) 2).1 = .tok .eof := by
  decide

/-- C3: continuing to lex the rest of the line after an emitted `Origin`
token does fail fatally — the next call starts with a `None` accumulator
in the `RestOfLine` state and `push_to_str` unwraps it on the first
ordinary character.  The input is the repository's own
`origin_with_comment` test, which expects `Ok(Comment)` from the second
call but panics instead. -/
theorem c3_rest_of_line_panics :
    (nthCall (Lexer.new "$ORIGIN cidr.network. ; this is a comment".toList) 0).1 =
        .tok (.origin "cidr.network.".toList 0) ∧
      (nthCall (Lexer.new "$ORIGIN cidr.network. ; this is a comment".toList) 1).1 =
        Outcome.fatal := by decide

/-- C4: a lone carriage return followed by a non-LF character makes the
`EOL` state return `EndOfInput` with input remaining (the source comment
on that arm claims it can never match), ending tokenization, contrary to
the claim that a lone CR is absorbed without ending tokenization.  The
other parts of the claim hold on the sample `";a\r\n;b\n"`: CRLF and
bare LF each terminate a line, and the line counter ends at 2, having
incremented exactly once per consumed line feed. -/
theorem c4_lone_cr_ends_tokenization :
    (nextToken (Lexer.new "\ra".toList)).1 = .tok .eof ∧
      (nextToken (Lexer.new "\ra".toList)).2.zf = ['a'] ∧
      (nthCall (Lexer.new ";a\r\n;b\n".toList) 4).1 = .tok .eof ∧
      (nthCall (Lexer.new ";a\r\n;b\n".toList) 4).2.lineno = 2 := by decide

/-- C5: once `next_token` returns `EndOfInput` the lexer is in an
`eofStable` configuration, so every subsequent call returns `EndOfInput`
again (with the lexer unchanged), never an error or another token. -/
theorem c5_eof_persists (lx : Lexer) (h : (nextToken lx).1 = .tok .eof) :
    ∀ n, nthCall lx n = (.tok .eof, (nextToken lx).2) := by
  have hst : eofStable (nextToken lx).2 :=
    lexLoop_eof_stable (lexMeasure lx + 1) lx none h
  intro n
  induction n with
  | zero =>
    show nextToken lx = _
    exact Prod.ext h rfl
  | succ n ih =>
    show nextToken (nthCall lx n).2 = _
    rw [ih]
    exact stable_nextToken hst

/-- C5 witness: on the empty input the first call returns `EndOfInput`,
and so does the fourth. -/
theorem c5_eof_persists_witness :
    (nextToken (Lexer.new [])).1 = .tok .eof ∧
      nthCall (Lexer.new []) 3 = (.tok .eof, (nextToken (Lexer.new [])).2) :=
  ⟨by decide, c5_eof_persists (Lexer.new []) (by decide) 3⟩

/-- C6 counterexample: a comment whose body contains the control
character U+0001 does not lex to a verbatim `Text` token — the second
call returns the `UnexpectedControlCharacter` error. -/
theorem c6_control_comment_counterexample :
    (nthCall (Lexer.new (';' :: Char.ofNat 1 :: ['\n'])) 0).1 = .tok .comment ∧
      (nthCall (Lexer.new (';' :: Char.ofNat 1 :: ['\n'])) 1).1 =
        .err "Unexpected control character found" := by decide

/-- C6 amended: a control character other than CR or LF in a comment body
is rejected, not carried verbatim: after the `Comment` token, the call
lexing the comment body returns the `UnexpectedControlCharacter` error
when it reaches the first control character of the body (`pre` is the
control-free part of the body before it). -/
theorem c6_amended_control_comment_errors (pre : List Char) (c : Char) (rest : List Char)
    (hpre : ∀ x ∈ pre, rustIsControl x = false)
    (h1 : rustIsControl c = true) (h2 : c ≠ '\r') (h3 : c ≠ '\n') :
    (nthCall (Lexer.new (';' :: pre ++ c :: rest)) 0).1 = .tok .comment ∧
      (nthCall (Lexer.new (';' :: pre ++ c :: rest)) 1).1 =
        .err "Unexpected control character found" := by
  have h0 : nextToken (Lexer.new (';' :: pre ++ c :: rest)) =
      (.tok .comment,
        { zf := ';' :: pre ++ c :: rest, lineno := 0, charno := 0,
          state := .comment }) :=
    lexRun_done rfl
  have hm : lexStep
      { zf := ';' :: pre ++ c :: rest, lineno := 0, charno := 0,
        state := State.comment } none =
      .more { zf := pre ++ c :: rest, lineno := 0, charno := 1,
              state := State.restOfLine } (some []) := rfl
  have hfin : lexStep
      { zf := c :: rest, lineno := 0, charno := 1 + (pre.length : Int),
        state := State.restOfLine } (some ([] ++ pre)) =
      .done (.err "Unexpected control character found")
        { zf := c :: rest, lineno := 0, charno := 1 + (pre.length : Int),
          state := State.restOfLine } := by
    simp [lexStep, h1, h2, h3]
  have h1' : nextToken
      { zf := ';' :: pre ++ c :: rest, lineno := 0, charno := 0,
        state := State.comment } =
      (.err "Unexpected control character found",
        { zf := c :: rest, lineno := 0, charno := 1 + (pre.length : Int),
          state := State.restOfLine }) := by
    rw [nextToken, lexRun_more hm,
      restOfLine_accumulate pre [] (c :: rest) 0 1 hpre, lexRun_done hfin]
  have hcall0 : nthCall (Lexer.new (';' :: pre ++ c :: rest)) 0 =
      (.tok .comment,
        { zf := ';' :: pre ++ c :: rest, lineno := 0, charno := 0,
          state := .comment }) := h0
  have hcall1 : nthCall (Lexer.new (';' :: pre ++ c :: rest)) 1 =
      (.err "Unexpected control character found",
        { zf := c :: rest, lineno := 0, charno := 1 + (pre.length : Int),
          state := State.restOfLine }) := by
    show nextToken (nthCall (Lexer.new (';' :: pre ++ c :: rest)) 0).2 = _
    rw [hcall0]
    exact h1'
  exact ⟨by rw [hcall0], by rw [hcall1]⟩

/-- C6 witness: the amended statement on the comment `"; a\x02x"`, whose
body holds the control character U+0002 after the control-free prefix
`" a"`. -/
theorem c6_amended_witness :
    ((∀ x ∈ " a".toList, rustIsControl x = false) ∧
        rustIsControl (Char.ofNat 2) = true ∧ Char.ofNat 2 ≠ '\r' ∧
        Char.ofNat 2 ≠ '\n') ∧
      (nthCall (Lexer.new (';' :: " a".toList ++ Char.ofNat 2 :: "x".toList)) 0).1 =
          .tok .comment ∧
        (nthCall (Lexer.new (';' :: " a".toList ++ Char.ofNat 2 :: "x".toList)) 1).1 =
          .err "Unexpected control character found" :=
  ⟨by decide,
    c6_amended_control_comment_errors " a".toList (Char.ofNat 2) "x".toList
      (by decide) (by decide) (by decide) (by decide)⟩

/-- C7: with a line terminator ending the directive name the code returns
`UnexpectedControlCharacter` (CR and LF are control characters, so the
`is_control` guard fires before the dead `Some('\r') | Some('\n')`
patterns of the end-of-line arm); only actual end of input yields
`UnexpectedEndOfLine`, contrary to the claim. -/
theorem c7_directive_terminator_errors :
    (nextToken (Lexer.new "$ORIGIN\n".toList)).1 =
        .err "Unexpected control character found" ∧
      (nextToken (Lexer.new "$ORIGIN\r".toList)).1 =
        .err "Unexpected control character found" ∧
      (nextToken (Lexer.new "$ORIGIN".toList)).1 = .err "Unexpected end of line" := by
  decide

/-- C8 counterexample: with a tab as the first whitespace after the
directive name (`"$origin\tx"`), the code returns
`UnexpectedControlCharacter` — the comparison against the known directive
names never happens and `UnknownDirective` is not returned, so the claim
as stated is false. -/
theorem c8_tab_counterexample :
    (nextToken (Lexer.new "$origin\tx".toList)).1 =
        .err "Unexpected control character found" ∧
      (nextToken (Lexer.new "$origin\tx".toList)).1 ≠ .err "Unknown control entry" := by
  decide

/-- C8 amended: the accumulated directive name is compared case-sensitively
against exactly `INCLUDE`, `ORIGIN` and `TTL` at the first whitespace
character that is not a control character; any other name (for instance
lowercase `origin`) then yields the `UnknownDirective` error.  Whitespace
that is also a control character (tab, CR, LF) instead triggers the
`UnexpectedControlCharacter` error before any comparison. -/
theorem c8_amended_unknown_directive (name : List Char) (w : Char) (rest : List Char)
    (hname : ∀ c ∈ name, rustIsControl c = false ∧ rustIsWhitespace c = false)
    (hw1 : rustIsWhitespace w = true) (hw2 : rustIsControl w = false)
    (h1 : name ≠ "INCLUDE".toList) (h2 : name ≠ "ORIGIN".toList)
    (h3 : name ≠ "TTL".toList) :
    (nextToken (Lexer.new ('$' :: name ++ w :: rest))).1 =
      .err "Unknown control entry" := by
  have h0 : lexStep (Lexer.new ('$' :: name ++ w :: rest)) none =
      .more { zf := name ++ w :: rest, lineno := 0, charno := 1, state := .dollar }
        (some []) := by
    simp [lexStep, Lexer.new, Lexer.next]
  rw [nextToken, lexRun_more h0,
    dollar_accumulate name [] (w :: rest) 0 1 hname]
  have hfin : lexStep
      { zf := w :: rest, lineno := 0, charno := 1 + (name.length : Int),
        state := State.dollar } (some ([] ++ name)) =
      .done (.err "Unknown control entry")
        { zf := w :: rest, lineno := 0, charno := 1 + (name.length : Int),
          state := State.dollar } := by
    have e1 : name ≠ ['I', 'N', 'C', 'L', 'U', 'D', 'E'] := by simpa using h1
    have e2 : name ≠ ['O', 'R', 'I', 'G', 'I', 'N'] := by simpa using h2
    have e3 : name ≠ ['T', 'T', 'L'] := by simpa using h3
    simp [lexStep, hw1, hw2, e1, e2, e3]
  rw [lexRun_done hfin]

/-- C8 witness: the amended statement at the lowercase name `origin`
separated by a space. -/
theorem c8_amended_witness :
    ((∀ c ∈ "origin".toList, rustIsControl c = false ∧ rustIsWhitespace c = false) ∧
        rustIsWhitespace ' ' = true ∧ rustIsControl ' ' = false ∧
        "origin".toList ≠ "INCLUDE".toList ∧ "origin".toList ≠ "ORIGIN".toList ∧
        "origin".toList ≠ "TTL".toList) ∧
      (nextToken (Lexer.new ('$' :: "origin".toList ++ ' ' :: []))).1 =
        .err "Unknown control entry" :=
  ⟨by decide,
    c8_amended_unknown_directive "origin".toList ' ' [] (by decide) (by decide)
      (by decide) (by decide) (by decide) (by decide)⟩

/-- C9: on the input `"; hello\n"` the calls yield exactly the `Comment`
token, then `Text(" hello")` (the comment body without the semicolon),
then `EndOfInput`. -/
theorem c9_comment_scenario :
    (nthCall (Lexer.new "; hello\n".toList) 0).1 = .tok .comment ∧
      (nthCall (Lexer.new "; hello\n".toList) 1).1 = .tok (.text " hello".toList) ∧
      (nthCall (Lexer.new "; hello\n".toList) 2).1 = .tok .eof := by decide

/-- C10: when `$ORIGIN` and its separating space are immediately followed
by end of input, a line terminator, or another whitespace character, the
call returns an `Origin` token with the empty name (and line 0), not an
error. -/
theorem c10_empty_origin_name (rest : List Char)
    (h : rest = [] ∨ ∃ c rest', rest = c :: rest' ∧
      (c = '\r' ∨ c = '\n' ∨ rustIsWhitespace c = true)) :
    (nextToken (Lexer.new ("$ORIGIN ".toList ++ rest))).1 = .tok (.origin [] 0) := by
  have hshape : "$ORIGIN ".toList ++ rest = '$' :: ("ORIGIN".toList ++ ' ' :: rest) := rfl
  rw [hshape]
  have h0 : lexStep (Lexer.new ('$' :: ("ORIGIN".toList ++ ' ' :: rest))) none =
      .more { zf := "ORIGIN".toList ++ ' ' :: rest, lineno := 0, charno := 1,
              state := .dollar } (some []) := rfl
  rw [nextToken, lexRun_more h0,
    dollar_accumulate "ORIGIN".toList [] (' ' :: rest) 0 1 (by decide)]
  have h1 : lexStep
      { zf := ' ' :: rest, lineno := 0, charno := 1 + (("ORIGIN".toList.length : Int)),
        state := State.dollar } (some ([] ++ "ORIGIN".toList)) =
      .more { zf := rest, lineno := 0, charno := 1 + (("ORIGIN".toList.length : Int)) + 1,
              state := State.origin } (some []) := rfl
  rw [lexRun_more h1]
  rcases h with rfl | ⟨c, rest', rfl, hc⟩
  · have hfin : lexStep
        { zf := ([] : List Char), lineno := 0,
          charno := 1 + (("ORIGIN".toList.length : Int)) + 1, state := State.origin }
        (some []) =
        .done (.tok (.origin [] 0))
          { zf := ([] : List Char), lineno := 0,
            charno := 1 + (("ORIGIN".toList.length : Int)) + 1,
            state := State.restOfLine } := rfl
    rw [lexRun_done hfin]
  · have hfin : lexStep
        { zf := c :: rest', lineno := 0,
          charno := 1 + (("ORIGIN".toList.length : Int)) + 1, state := State.origin }
        (some []) =
        .done (.tok (.origin [] 0))
          { zf := c :: rest', lineno := 0,
            charno := 1 + (("ORIGIN".toList.length : Int)) + 1,
            state := State.restOfLine } := by
      rcases hc with rfl | rfl | hws
      · rfl
      · rfl
      · simp [lexStep, hws, charsGet]
    rw [lexRun_done hfin]

/-- C10 witness: the statement at the remainder `"\n"`. -/
theorem c10_empty_origin_name_witness :
    (nextToken (Lexer.new ("$ORIGIN ".toList ++ ['\n']))).1 = .tok (.origin [] 0) :=
  c10_empty_origin_name ['\n'] (Or.inr ⟨'\n', [], rfl, Or.inr (Or.inl rfl)⟩)

end ZoneLexer
